import Mathlib

/-!
# Verification of the team-handling module

This development shallowly embeds `backend/open_webui/utils/team_handling.py`:
the turn-selection function `selector_func` of `create_team`, the appending
code-executor loop `_execute_code_dont_check_setup` of
`AppendingDockerCodeExecutor`, the termination condition wired by
`create_team`, and the cleanup structure of `run_task`.

External library helpers used by the loop (`silence_pip`,
`get_file_name_from_content`, `sha256(...).hexdigest()`, `lang_to_cmd`,
`container.exec_run`) are not part of this repository; they are abstracted
as fields of an environment record `Env`, so every theorem about the loop
quantifies over their behaviour.
-/

namespace TeamHandling

/-- `listContainsSub pat s` holds when `pat` occurs as a contiguous
sublist of `s`. -/
def listContainsSub (pat : List Char) : List Char → Bool
  | [] => pat.isEmpty
  | c :: t => pat.isPrefixOf (c :: t) || listContainsSub pat t

/-- Case-sensitive substring test, the embedding of Python's
`phrase in content` on strings. -/
def containsSub (s pat : String) : Bool :=
  listContainsSub pat.toList s.toList

/-- Executable embedding of Python's `str.lower()` (character-wise
lowering). -/
def strLower (s : String) : String := ⟨s.data.map Char.toLower⟩

/-- A chat message as used by `selector_func`: only the `source` and
`content` fields are consulted. -/
structure ChatMessage where
  source : String
  content : String
deriving Repr, DecidableEq

/-- Agent name of the proposer (`WriterAgent`). -/
def writer_agent : String := "writer_agent"

/-- Agent name of the validator (`SafeGuardAgent`). -/
def safeguard_agent : String := "safeguard_agent"

/-- Agent name of the executor (`CodeExecutorAgent`). -/
def code_executor : String := "code_executor"

/-- The turn selector of `create_team` (team_handling.py lines 160-177):
`conversation[-1]` is the last element of the history; an empty history and
every unrecognized source route to the writer. -/
def selector_func (conversation : List ChatMessage) : String :=
  match conversation.getLast? with
  | none => writer_agent
  | some last_message =>
    if last_message.source = writer_agent then
      safeguard_agent
    else if last_message.source = safeguard_agent then
      if containsSub last_message.content "SAFETY VERIFIED" then
        code_executor
      else
        writer_agent
    else if last_message.source = code_executor then
      writer_agent
    else
      writer_agent

lemma selector_func_last (pre : List ChatMessage) (m : ChatMessage) :
    selector_func (pre ++ [m]) =
      (if m.source = writer_agent then safeguard_agent
       else if m.source = safeguard_agent then
         (if containsSub m.content "SAFETY VERIFIED" then code_executor
          else writer_agent)
       else writer_agent) := by
  unfold selector_func
  rw [List.getLast?_concat]
  by_cases h1 : m.source = writer_agent <;>
    by_cases h2 : m.source = safeguard_agent <;>
      by_cases h3 : m.source = code_executor <;>
        simp [h1, h2, h3]

/-- **C1.** The turn selector is a pure function of the ordered history:
empty history routes to the proposer (`writer_agent`); a last message from
the proposer routes to the validator (`safeguard_agent`); a last message
from the validator routes to the executor (`code_executor`) exactly when
its content contains the case-sensitive substring `"SAFETY VERIFIED"` and
to the proposer otherwise; a last message from the executor, and any other
last message, routes to the proposer. -/
theorem selector_func_spec :
    selector_func [] = writer_agent ∧
    (∀ pre c, selector_func (pre ++ [⟨writer_agent, c⟩]) = safeguard_agent) ∧
    (∀ pre c, containsSub c "SAFETY VERIFIED" = true →
      selector_func (pre ++ [⟨safeguard_agent, c⟩]) = code_executor) ∧
    (∀ pre c, containsSub c "SAFETY VERIFIED" = false →
      selector_func (pre ++ [⟨safeguard_agent, c⟩]) = writer_agent) ∧
    (∀ pre c, selector_func (pre ++ [⟨code_executor, c⟩]) = writer_agent) ∧
    (∀ pre (m : ChatMessage), m.source ≠ writer_agent →
      m.source ≠ safeguard_agent → m.source ≠ code_executor →
      selector_func (pre ++ [m]) = writer_agent) := by
  refine ⟨rfl, ?_, ?_, ?_, ?_, ?_⟩
  · intro pre c
    rw [selector_func_last]
    simp [writer_agent, safeguard_agent]
  · intro pre c hc
    rw [selector_func_last]
    simp [writer_agent, safeguard_agent, code_executor, hc]
  · intro pre c hc
    rw [selector_func_last]
    simp [writer_agent, safeguard_agent, code_executor, hc]
  · intro pre c
    rw [selector_func_last]
    simp [writer_agent, safeguard_agent, code_executor]
  · intro pre m h1 h2 h3
    rw [selector_func_last]
    simp [h1, h2]

/-- Witness for C1: the selector's branches evaluated at concrete inputs. -/
theorem selector_func_spec_witness :
    selector_func [⟨"safeguard_agent", "SAFETY VERIFIED: ok"⟩] = "code_executor" ∧
    selector_func [⟨"safeguard_agent", "UNSAFE"⟩] = "writer_agent" ∧
    selector_func [⟨"user", "hello"⟩] = "writer_agent" := by
  refine ⟨?_, ?_, ?_⟩
  · exact selector_func_spec.2.2.1 [] "SAFETY VERIFIED: ok" (by decide)
  · exact selector_func_spec.2.2.2.1 [] "UNSAFE" (by decide)
  · exact selector_func_spec.2.2.2.2.2 [] ⟨"user", "hello"⟩
      (by decide) (by decide) (by decide)

/-! ## The appending code executor

`AppendingDockerCodeExecutor._execute_code_dont_check_setup` (team_handling.py
lines 39-95).  The filesystem of the working directory is modelled as a map
from paths to file contents; the container and the external helpers are
abstracted in `Env`. -/

/-- A code block handed to the executor: `{language, code}`. -/
structure CodeBlock where
  language : String
  code : String
deriving Repr, DecidableEq

/-- Outcome of `container.exec_run`: process exit code and decoded output. -/
structure ExecOutcome where
  exit_code : Int
  output : String
deriving Repr, DecidableEq

/-- The filesystem of the working directory: paths to file contents. -/
def FS := String → Option String

/-- The executor's environment: its own configuration (`running` abbreviates
`container is not None and self._running`, `work_dir`, `timeout`) together
with the external library helpers it calls, abstracted as functions:
`silence_pip code lang`, `get_file_name_from_content code` (`Except.error`
models the `ValueError` raised for a declared filename escaping the
workspace, `Except.ok none` the absence of a filename directive),
`sha256_hexdigest body` for `sha256(body.encode()).hexdigest()`,
`lang_to_cmd`, and `exec_run i` for the container outcome of the `i`-th
executed command. -/
structure Env where
  running : Bool
  work_dir : String
  timeout : Nat
  silence_pip : String → String → String
  get_file_name_from_content : String → Except Unit (Option String)
  sha256_hexdigest : String → String
  lang_to_cmd : String → String
  exec_run : Nat → ExecOutcome

/-- Write `code` at path `p`: append after a separating newline when the
file exists, create it otherwise (lines 70-77). -/
def writeOrAppend (fs : FS) (p code : String) : FS :=
  match fs p with
  | some old => fun q => if q = p then some (old ++ "\n" ++ code) else fs q
  | none => fun q => if q = p then some code else fs q

/-- Accumulated state of the per-block loop: the `outputs` and `files`
lists, `last_exit_code`, the working-directory filesystem, and the list of
commands handed to `exec_run` (in order). -/
structure LoopOut where
  outputs : List String
  files : List String
  last_exit_code : Int
  fs : FS
  cmds : List (List String)

/-- The per-block loop of `_execute_code_dont_check_setup` (lines 52-92).
`i` is the index of the current block in the original list, used to key the
`exec_run` oracle; each iteration lowers the language, silences pip, resolves
the filename (falling back to `tmp_code_<sha256>.<lang>`), writes or appends
the file, runs `["timeout", timeout, lang_to_cmd lang, filename]`, flags exit
code 124 with a timeout notice, and breaks on nonzero exit. -/
def execLoop (env : Env) :
    List CodeBlock → Nat → List String → List String → Int → FS →
      List (List String) → LoopOut
  | [], _, outputs, files, last, fs, cmds => ⟨outputs, files, last, fs, cmds⟩
  | cb :: rest, i, outputs, files, _, fs, cmds =>
    let lang := strLower cb.language
    let code := env.silence_pip cb.code lang
    match env.get_file_name_from_content code with
    | Except.error _ =>
      ⟨outputs ++ ["Filename is not in the workspace"], files, 1, fs, cmds⟩
    | Except.ok fn =>
      let filename :=
        match fn with
        | some f => f
        | none => "tmp_code_" ++ env.sha256_hexdigest code ++ "." ++ lang
      let code_path := env.work_dir ++ "/" ++ filename
      let fs' := writeOrAppend fs code_path code
      let files' := files ++ [code_path]
      let command := ["timeout", toString env.timeout, env.lang_to_cmd lang, filename]
      let res := env.exec_run i
      let output :=
        if res.exit_code = 124 then res.output ++ "\n Timeout" else res.output
      let outputs' := outputs ++ [output]
      if res.exit_code ≠ 0 then
        ⟨outputs', files', res.exit_code, fs', cmds ++ [command]⟩
      else
        execLoop env rest (i + 1) outputs' files' res.exit_code fs' (cmds ++ [command])

/-- The two `ValueError`s of lines 42-46. -/
inductive ExecError where
  | RunnerNotReady
  | EmptyInput
deriving Repr, DecidableEq

/-- The `CommandLineCodeResult` returned on line 95. -/
structure CommandLineCodeResult where
  exit_code : Int
  output : String
  code_file : Option String
deriving Repr, DecidableEq

/-- `_execute_code_dont_check_setup`: guard checks (lines 42-46), then the
loop, then `CommandLineCodeResult(exit_code=last_exit_code,
output="".join(outputs), code_file=str(files[0]) if files else None)`.
Returns the final filesystem and the executed commands alongside the
result. -/
def execute_code (env : Env) (fs : FS) (code_blocks : List CodeBlock) :
    Except ExecError CommandLineCodeResult × FS × List (List String) :=
  if ¬ env.running then (Except.error ExecError.RunnerNotReady, fs, [])
  else if code_blocks.length = 0 then (Except.error ExecError.EmptyInput, fs, [])
  else
    let r := execLoop env code_blocks 0 [] [] 0 fs []
    (Except.ok ⟨r.last_exit_code, String.join r.outputs, r.files.head?⟩, r.fs, r.cmds)

/-! ### Specification-side views of the loop -/

/-- The silenced body of a block, as written to its file. -/
def silenced (env : Env) (cb : CodeBlock) : String :=
  env.silence_pip cb.code (strLower cb.language)

/-- Whether filename resolution succeeds for a block (no `ValueError` from
`get_file_name_from_content` on the silenced body). -/
def resolvesOk (env : Env) (cb : CodeBlock) : Bool :=
  match env.get_file_name_from_content (silenced env cb) with
  | Except.error _ => false
  | Except.ok _ => true

/-- The filename a block resolves to when resolution succeeds: the declared
one, or the hash-derived fallback. -/
def resolvedFilename (env : Env) (cb : CodeBlock) : String :=
  match env.get_file_name_from_content (silenced env cb) with
  | Except.ok (some f) => f
  | _ =>
    "tmp_code_" ++ env.sha256_hexdigest (silenced env cb) ++ "." ++
      strLower cb.language

/-- The path a block's file is written to. -/
def resolvedPath (env : Env) (cb : CodeBlock) : String :=
  env.work_dir ++ "/" ++ resolvedFilename env cb

/-- The command built for a block. -/
def fragCommand (env : Env) (cb : CodeBlock) : List String :=
  ["timeout", toString env.timeout, env.lang_to_cmd (strLower cb.language),
    resolvedFilename env cb]

/-- Exit code the container reports for the `i`-th block. -/
def fragExit (env : Env) (i : Nat) : Int :=
  (env.exec_run i).exit_code

/-- Output recorded for the `i`-th block (timeout notice appended on 124). -/
def fragOutput (env : Env) (i : Nat) : String :=
  if fragExit env i = 124 then (env.exec_run i).output ++ "\n Timeout"
  else (env.exec_run i).output

/-- Number of blocks the loop processes before stopping (the failing block,
if any, included), starting at oracle index `i`. -/
def processedCount (env : Env) : List CodeBlock → Nat → Nat
  | [], _ => 0
  | _ :: rest, i =>
    if fragExit env i ≠ 0 then 1 else 1 + processedCount env rest (i + 1)

/-- The exit code of the last processed block (0 when all succeed),
starting at oracle index `i`. -/
def finalExit (env : Env) : List CodeBlock → Nat → Int
  | [], _ => 0
  | _ :: rest, i =>
    if fragExit env i ≠ 0 then fragExit env i else finalExit env rest (i + 1)

/-- Filesystem after writing the given blocks in order. -/
def writeAll (env : Env) (blocks : List CodeBlock) (fs : FS) : FS :=
  blocks.foldl (fun g cb => writeOrAppend g (resolvedPath env cb) (silenced env cb)) fs

/-! ### Loop lemmas -/

lemma execLoop_step_err (env : Env) (cb : CodeBlock) (rest : List CodeBlock)
    (i : Nat) (outputs files : List String) (last : Int) (fs : FS)
    (cmds : List (List String)) (h : resolvesOk env cb = false) :
    execLoop env (cb :: rest) i outputs files last fs cmds =
      ⟨outputs ++ ["Filename is not in the workspace"], files, 1, fs, cmds⟩ := by
  unfold execLoop
  unfold resolvesOk silenced at h
  rcases hE : env.get_file_name_from_content
      (env.silence_pip cb.code (strLower cb.language)) with e | fn
  · simp [hE]
  · rw [hE] at h; simp at h

lemma execLoop_step_ok_stop (env : Env) (cb : CodeBlock) (rest : List CodeBlock)
    (i : Nat) (outputs files : List String) (last : Int) (fs : FS)
    (cmds : List (List String)) (hres : resolvesOk env cb = true)
    (hexit : fragExit env i ≠ 0) :
    execLoop env (cb :: rest) i outputs files last fs cmds =
      ⟨outputs ++ [fragOutput env i], files ++ [resolvedPath env cb],
       fragExit env i, writeOrAppend fs (resolvedPath env cb) (silenced env cb),
       cmds ++ [fragCommand env cb]⟩ := by
  unfold resolvesOk silenced at hres
  unfold fragExit at hexit
  rcases hE : env.get_file_name_from_content
      (env.silence_pip cb.code (strLower cb.language)) with e | fn
  · rw [hE] at hres; simp at hres
  · conv_lhs => unfold execLoop
    simp only [hE, hexit, if_true]
    cases fn with
    | none =>
      simp [fragOutput, fragExit, resolvedPath, resolvedFilename, silenced,
        fragCommand, hE, hexit]
    | some f =>
      simp [fragOutput, fragExit, resolvedPath, resolvedFilename, silenced,
        fragCommand, hE, hexit]

lemma execLoop_step_ok_cont (env : Env) (cb : CodeBlock) (rest : List CodeBlock)
    (i : Nat) (outputs files : List String) (last : Int) (fs : FS)
    (cmds : List (List String)) (hres : resolvesOk env cb = true)
    (hexit : fragExit env i = 0) :
    execLoop env (cb :: rest) i outputs files last fs cmds =
      execLoop env rest (i + 1) (outputs ++ [fragOutput env i])
        (files ++ [resolvedPath env cb]) 0
        (writeOrAppend fs (resolvedPath env cb) (silenced env cb))
        (cmds ++ [fragCommand env cb]) := by
  unfold resolvesOk silenced at hres
  unfold fragExit at hexit
  rcases hE : env.get_file_name_from_content
      (env.silence_pip cb.code (strLower cb.language)) with e | fn
  · rw [hE] at hres; simp at hres
  · conv_lhs => unfold execLoop
    simp only [hE]
    cases fn with
    | none =>
      simp [fragOutput, fragExit, resolvedPath, resolvedFilename, silenced,
        fragCommand, hE, hexit]
    | some f =>
      simp [fragOutput, fragExit, resolvedPath, resolvedFilename, silenced,
        fragCommand, hE, hexit]

lemma execLoop_spec (env : Env) (blocks : List CodeBlock) :
    ∀ (i : Nat) (outputs files : List String) (fs : FS)
      (cmds : List (List String)),
      (∀ cb ∈ blocks, resolvesOk env cb = true) →
      execLoop env blocks i outputs files 0 fs cmds =
        ⟨outputs ++ (List.range' i (processedCount env blocks i)).map (fragOutput env),
         files ++ (blocks.take (processedCount env blocks i)).map (resolvedPath env),
         finalExit env blocks i,
         writeAll env (blocks.take (processedCount env blocks i)) fs,
         cmds ++ (blocks.take (processedCount env blocks i)).map (fragCommand env)⟩ := by
  induction blocks with
  | nil =>
    intro i outputs files fs cmds _
    simp [execLoop, processedCount, finalExit, writeAll]
  | cons cb rest ih =>
    intro i outputs files fs cmds hres
    have hcb : resolvesOk env cb = true := hres cb (List.mem_cons_self cb rest)
    have hrest : ∀ cb' ∈ rest, resolvesOk env cb' = true :=
      fun cb' h => hres cb' (List.mem_cons_of_mem _ h)
    by_cases hexit : fragExit env i = 0
    · rw [execLoop_step_ok_cont env cb rest i outputs files 0 fs cmds hcb hexit,
        ih (i + 1) _ _ _ _ hrest]
      have hk : processedCount env (cb :: rest) i =
          processedCount env rest (i + 1) + 1 := by
        simp [processedCount, hexit, Nat.add_comm]
      have hf : finalExit env (cb :: rest) i = finalExit env rest (i + 1) := by
        simp [finalExit, hexit]
      rw [hk, hf, List.range'_succ]
      simp [writeAll, List.append_assoc]
    · rw [execLoop_step_ok_stop env cb rest i outputs files 0 fs cmds hcb hexit]
      have hk : processedCount env (cb :: rest) i = 1 := by
        simp [processedCount, hexit]
      have hf : finalExit env (cb :: rest) i = fragExit env i := by
        simp [finalExit, hexit]
      rw [hk, hf]
      simp [writeAll, List.range'_succ]

lemma processedCount_pos (env : Env) (cb : CodeBlock) (rest : List CodeBlock)
    (i : Nat) : 1 ≤ processedCount env (cb :: rest) i := by
  by_cases h : fragExit env i = 0 <;> simp [processedCount, h]

lemma processedCount_le_length (env : Env) :
    ∀ (blocks : List CodeBlock) (i : Nat),
      processedCount env blocks i ≤ blocks.length := by
  intro blocks
  induction blocks with
  | nil => intro i; simp [processedCount]
  | cons cb rest ih =>
    intro i
    by_cases h : fragExit env i = 0 <;> simp [processedCount, h]
    have := ih (i + 1)
    omega

lemma processedCount_exits_zero (env : Env) :
    ∀ (blocks : List CodeBlock) (i j : Nat),
      j + 1 < processedCount env blocks i → fragExit env (i + j) = 0 := by
  intro blocks
  induction blocks with
  | nil => intro i j h; simp [processedCount] at h
  | cons cb rest ih =>
    intro i j h
    by_cases hexit : fragExit env i = 0
    · simp only [processedCount, hexit, ne_eq, not_true_eq_false, if_false,
        ite_false] at h
      cases j with
      | zero => simpa using hexit
      | succ j' =>
        have hj : j' + 1 < processedCount env rest (i + 1) := by omega
        have := ih (i + 1) j' hj
        have harith : i + (j' + 1) = (i + 1) + j' := by omega
        rw [harith]
        exact this
    · simp [processedCount, hexit] at h

lemma finalExit_last (env : Env) :
    ∀ (blocks : List CodeBlock) (i : Nat), blocks ≠ [] →
      finalExit env blocks i =
        fragExit env (i + (processedCount env blocks i - 1)) := by
  intro blocks
  induction blocks with
  | nil => intro i h; simp at h
  | cons cb rest ih =>
    intro i _
    by_cases hexit : fragExit env i = 0
    · rcases rest with _ | ⟨cb', rest'⟩
      · simp [finalExit, processedCount, hexit]
      · have h1 : finalExit env (cb :: cb' :: rest') i =
            finalExit env (cb' :: rest') (i + 1) := by
          simp [finalExit, hexit]
        have h2 : processedCount env (cb :: cb' :: rest') i =
            1 + processedCount env (cb' :: rest') (i + 1) := by
          simp [processedCount, hexit]
        have hpos := processedCount_pos env cb' rest' (i + 1)
        rw [h1, h2, ih (i + 1) (by simp)]
        congr 1
        omega
    · simp [finalExit, processedCount, hexit]

lemma finalExit_zero_of_all (env : Env) :
    ∀ (blocks : List CodeBlock) (i : Nat),
      (∀ j < blocks.length, fragExit env (i + j) = 0) →
      finalExit env blocks i = 0 := by
  intro blocks
  induction blocks with
  | nil => intro i _; simp [finalExit]
  | cons cb rest ih =>
    intro i h
    have h0 : fragExit env i = 0 := by simpa using h 0 (by simp)
    simp only [finalExit, h0, ne_eq, not_true_eq_false, if_false, ite_false]
    exact ih (i + 1) (fun j hj => by
      have := h (j + 1) (by simp; omega)
      have harith : i + (j + 1) = (i + 1) + j := by omega
      rw [harith] at this
      exact this)

lemma join_concat (l : List String) (s : String) :
    String.join (l ++ [s]) = String.join l ++ s := by
  induction l with
  | nil => simp [String.join]
  | cons a t ih => simp [String.join] at ih ⊢

/-- **C2.** On a non-empty block list whose blocks all resolve, the runner
processes a prefix of the blocks, stopping immediately after the first
block whose exit code is nonzero; the result's exit code is the last
processed block's exit code (0 when all succeed), its output is the
concatenation, in order, of exactly the processed blocks' outputs, its
`code_file` is the first block's resolved path, and the commands executed
are exactly those of the processed prefix, in order. -/
theorem execute_code_fail_fast (env : Env) (fs : FS) (b : CodeBlock)
    (rest : List CodeBlock) (hrun : env.running = true) :
    ((∀ cb ∈ b :: rest, resolvesOk env cb = true) →
      execute_code env fs (b :: rest) =
        (Except.ok
          ⟨finalExit env (b :: rest) 0,
           String.join
             ((List.range' 0 (processedCount env (b :: rest) 0)).map (fragOutput env)),
           some (resolvedPath env b)⟩,
         writeAll env ((b :: rest).take (processedCount env (b :: rest) 0)) fs,
         ((b :: rest).take (processedCount env (b :: rest) 0)).map (fragCommand env))) ∧
    (∀ j, j + 1 < processedCount env (b :: rest) 0 → fragExit env j = 0) ∧
    finalExit env (b :: rest) 0 =
      fragExit env (processedCount env (b :: rest) 0 - 1) ∧
    ((∀ j < (b :: rest).length, fragExit env j = 0) →
      finalExit env (b :: rest) 0 = 0) ∧
    (resolvesOk env b = false →
      (execute_code env fs (b :: rest)).1 =
        Except.ok ⟨1, "Filename is not in the workspace", none⟩) := by
  refine ⟨?_, ?_, ?_, ?_, ?_⟩
  · intro hres
    unfold execute_code
    rw [execLoop_spec env (b :: rest) 0 [] [] fs [] hres]
    obtain ⟨k, hk⟩ : ∃ k, processedCount env (b :: rest) 0 = k + 1 :=
      ⟨processedCount env (b :: rest) 0 - 1,
        (Nat.succ_pred_eq_of_pos (processedCount_pos env b rest 0)).symm⟩
    simp [hrun, hk]
  · intro j hj
    simpa using processedCount_exits_zero env (b :: rest) 0 j hj
  · simpa using finalExit_last env (b :: rest) 0 (by simp)
  · intro h
    exact finalExit_zero_of_all env (b :: rest) 0 (fun j hj => by simpa using h j hj)
  · intro hbad
    unfold execute_code
    rw [execLoop_step_err env b rest 0 [] [] 0 fs [] hbad]
    simp [hrun, String.join]

/-- Concrete environment for witnesses: no filename directives, identity
pip-silencing, body-length hash, exit 0 then 2 then 0. -/
def wEnv2 : Env where
  running := true
  work_dir := "/data"
  timeout := 60
  silence_pip := fun code _ => code
  get_file_name_from_content := fun _ => Except.ok none
  sha256_hexdigest := fun code => toString code.length
  lang_to_cmd := fun _ => "python3"
  exec_run := fun i =>
    if i = 0 then ⟨0, "a;"⟩ else if i = 1 then ⟨2, "b;"⟩ else ⟨0, "c;"⟩

/-- The everywhere-empty working directory. -/
def wFS : FS := fun _ => none

/-- Witness for C2: with exits `[0, 2, 0]`, blocks A and B are processed,
C is not, exit code 2, output `a;b;`, first file path reported. -/
theorem execute_code_fail_fast_witness :
    (execute_code wEnv2 wFS
      [⟨"python", "A"⟩, ⟨"python", "B"⟩, ⟨"python", "C"⟩]).1 =
      Except.ok ⟨2, "a;b;", some "/data/tmp_code_1.python"⟩ ∧
    (execute_code wEnv2 wFS
      [⟨"python", "A"⟩, ⟨"python", "B"⟩, ⟨"python", "C"⟩]).2.2 =
      [["timeout", "60", "python3", "tmp_code_1.python"],
       ["timeout", "60", "python3", "tmp_code_1.python"]] := by
  have h := (execute_code_fail_fast wEnv2 wFS ⟨"python", "A"⟩
    [⟨"python", "B"⟩, ⟨"python", "C"⟩] rfl).1
    (by intro cb hcb; fin_cases hcb <;> rfl)
  constructor
  · rw [h]; rfl
  · rw [h]; rfl

/-- **C3.** The runner fails with `RunnerNotReady` when the container is
not running, and with `EmptyInput` when called (running) on an empty block
list; in both cases the filesystem is unchanged and no command is
executed. -/
theorem execute_code_guard_errors (env : Env) (fs : FS)
    (blocks : List CodeBlock) :
    (env.running = false →
      execute_code env fs blocks =
        (Except.error ExecError.RunnerNotReady, fs, [])) ∧
    (env.running = true → blocks = [] →
      execute_code env fs blocks =
        (Except.error ExecError.EmptyInput, fs, [])) := by
  constructor
  · intro h; simp [execute_code, h]
  · intro h hb; subst hb; simp [execute_code, h]

/-- `wEnv2` with the container stopped. -/
def wEnvNotReady : Env := { wEnv2 with running := false }

/-- Witness for C3: both guard errors at concrete inputs. -/
theorem execute_code_guard_errors_witness :
    execute_code wEnvNotReady wFS [⟨"python", "x"⟩] =
      (Except.error ExecError.RunnerNotReady, wFS, []) ∧
    execute_code wEnv2 wFS [] = (Except.error ExecError.EmptyInput, wFS, []) :=
  ⟨(execute_code_guard_errors wEnvNotReady wFS [⟨"python", "x"⟩]).1 rfl,
   (execute_code_guard_errors wEnv2 wFS []).2 rfl rfl⟩

lemma execLoop_append_ok (env : Env) (good : List CodeBlock) :
    ∀ (rest : List CodeBlock) (i : Nat) (outputs files : List String)
      (fs : FS) (cmds : List (List String)),
      (∀ cb ∈ good, resolvesOk env cb = true) →
      (∀ j < good.length, fragExit env (i + j) = 0) →
      execLoop env (good ++ rest) i outputs files 0 fs cmds =
        execLoop env rest (i + good.length)
          (outputs ++ (List.range' i good.length).map (fragOutput env))
          (files ++ good.map (resolvedPath env)) 0
          (writeAll env good fs)
          (cmds ++ good.map (fragCommand env)) := by
  induction good with
  | nil => intro rest i outputs files fs cmds _ _; simp [writeAll]
  | cons cb g ih =>
    intro rest i outputs files fs cmds hres hexits
    have hcb : resolvesOk env cb = true := hres cb (List.mem_cons_self cb g)
    have h0 : fragExit env i = 0 := by simpa using hexits 0 (by simp)
    rw [List.cons_append,
      execLoop_step_ok_cont env cb (g ++ rest) i outputs files 0 fs cmds hcb h0,
      ih rest (i + 1) _ _ _ _
        (fun c hc => hres c (List.mem_cons_of_mem _ hc))
        (fun j hj => by
          have := hexits (j + 1) (by simp; omega)
          have harith : i + (j + 1) = (i + 1) + j := by omega
          rwa [harith] at this)]
    have harith : i + 1 + g.length = i + (g.length + 1) := by omega
    simp [writeAll, List.range'_succ, harith]

/-- **C4.** When a block declares a filename escaping the working
directory (filename resolution raises), after a prefix of successfully
processed blocks, the run of that message does not abort: the runner
returns a normal result whose output ends with the error message
`"Filename is not in the workspace"` and whose exit code is the nonzero
code 1, the offending block is not written and no command is run for it,
and no later block of the message is processed. -/
theorem execute_code_invalid_filename (env : Env) (fs : FS)
    (good : List CodeBlock) (bad : CodeBlock) (after : List CodeBlock)
    (hrun : env.running = true)
    (hgood : ∀ cb ∈ good, resolvesOk env cb = true)
    (hexits : ∀ j < good.length, fragExit env j = 0)
    (hbad : resolvesOk env bad = false) :
    execute_code env fs (good ++ bad :: after) =
      (Except.ok
        ⟨1,
         String.join ((List.range' 0 good.length).map (fragOutput env)) ++
           "Filename is not in the workspace",
         (good.map (resolvedPath env)).head?⟩,
       writeAll env good fs,
       good.map (fragCommand env)) := by
  unfold execute_code
  rw [execLoop_append_ok env good (bad :: after) 0 [] [] fs [] hgood
      (by simpa using hexits),
    execLoop_step_err env bad after (0 + good.length) _ _ 0 _ _ hbad]
  simp [hrun, join_concat]

/-- `wEnv2` with `get_file_name_from_content` raising on the body `BAD`. -/
def wEnv4 : Env :=
  { wEnv2 with
    get_file_name_from_content := fun code =>
      if code = "BAD" then Except.error () else Except.ok none }

/-- Witness for C4: after block A succeeds, block BAD fails resolution;
the result carries exit code 1 and the error message, block C is not
processed, and only A's command ran. -/
theorem execute_code_invalid_filename_witness :
    (execute_code wEnv4 wFS
      [⟨"python", "A"⟩, ⟨"python", "BAD"⟩, ⟨"python", "C"⟩]).1 =
      Except.ok ⟨1, "a;Filename is not in the workspace",
        some "/data/tmp_code_1.python"⟩ ∧
    (execute_code wEnv4 wFS
      [⟨"python", "A"⟩, ⟨"python", "BAD"⟩, ⟨"python", "C"⟩]).2.2 =
      [["timeout", "60", "python3", "tmp_code_1.python"]] := by
  have h := execute_code_invalid_filename wEnv4 wFS [⟨"python", "A"⟩]
    ⟨"python", "BAD"⟩ [⟨"python", "C"⟩] rfl
    (by intro cb hcb; fin_cases hcb; rfl)
    (by intro j hj; simp at hj; subst hj; rfl)
    rfl
  constructor
  · rw [show ([⟨"python", "A"⟩, ⟨"python", "BAD"⟩, ⟨"python", "C"⟩] :
      List CodeBlock) =
      [⟨"python", "A"⟩] ++ ⟨"python", "BAD"⟩ :: [⟨"python", "C"⟩] from rfl, h]
    rfl
  · rw [show ([⟨"python", "A"⟩, ⟨"python", "BAD"⟩, ⟨"python", "C"⟩] :
      List CodeBlock) =
      [⟨"python", "A"⟩] ++ ⟨"python", "BAD"⟩ :: [⟨"python", "C"⟩] from rfl, h]
    rfl

lemma writeOrAppend_at_new (fs : FS) (p code : String) (h : fs p = none) :
    writeOrAppend fs p code p = some code := by
  unfold writeOrAppend; rw [h]; simp

lemma writeOrAppend_at_old (fs : FS) (p code old : String)
    (h : fs p = some old) :
    writeOrAppend fs p code p = some (old ++ "\n" ++ code) := by
  unfold writeOrAppend; rw [h]; simp

lemma execute_two_same_path (env : Env) (fs : FS) (b1 b2 : CodeBlock)
    (p : String) (h1 : resolvesOk env b1 = true)
    (h2 : resolvesOk env b2 = true) (hp1 : resolvedPath env b1 = p)
    (hp2 : resolvedPath env b2 = p) (hnew : fs p = none)
    (hexit0 : fragExit env 0 = 0) (hrun : env.running = true) :
    (execute_code env fs [b1]).2.1 p = some (silenced env b1) ∧
    (execute_code env fs [b1, b2]).2.1 p =
      some (silenced env b1 ++ "\n" ++ silenced env b2) := by
  constructor
  · unfold execute_code
    rw [execLoop_spec env [b1] 0 [] [] fs [] (by simpa using h1)]
    have hk : processedCount env [b1] 0 = 1 := by
      by_cases h : fragExit env 0 = 0 <;> simp [processedCount, h]
    simp only [hrun, not_true_eq_false, if_false, List.length_cons, hk]
    simp [writeAll, hp1, writeOrAppend_at_new fs p (silenced env b1) hnew]
  · unfold execute_code
    rw [execLoop_spec env [b1, b2] 0 [] [] fs []
      (by intro cb hcb
          simp only [List.mem_cons, List.not_mem_nil, or_false] at hcb
          rcases hcb with rfl | rfl
          · exact h1
          · exact h2)]
    have hk : processedCount env [b1, b2] 0 = 2 := by
      have h1' : processedCount env [b2] 1 = 1 := by
        by_cases h : fragExit env 1 = 0 <;> simp [processedCount, h]
      simp [processedCount, hexit0, h1']
    simp [hrun, hk, writeAll, hp1, hp2]
    rw [writeOrAppend_at_old _ p (silenced env b2) (silenced env b1)
      (writeOrAppend_at_new fs p (silenced env b1) hnew)]

/-- **C5.** Two blocks resolving to the same path, where no file exists at
that path beforehand: the first write creates the file holding exactly the
first silenced body, and running both blocks leaves the file holding the
first body, then exactly one separating newline, then the second body —
the first body is not truncated or modified. -/
theorem append_semantics (env : Env) (fs : FS) (b1 b2 : CodeBlock)
    (p : String) (h1 : resolvesOk env b1 = true)
    (h2 : resolvesOk env b2 = true) (hp1 : resolvedPath env b1 = p)
    (hp2 : resolvedPath env b2 = p) (hnew : fs p = none)
    (hexit0 : fragExit env 0 = 0) (hrun : env.running = true) :
    (execute_code env fs [b1]).2.1 p = some (silenced env b1) ∧
    (execute_code env fs [b1, b2]).2.1 p =
      some (silenced env b1 ++ "\n" ++ silenced env b2) :=
  execute_two_same_path env fs b1 b2 p h1 h2 hp1 hp2 hnew hexit0 hrun

/-- Witness for C5: bodies `A` and `B` both hash (by the sample length
hash) to `tmp_code_1.python`; the file is created with `A`, then holds
`A\nB`. -/
theorem append_semantics_witness :
    (execute_code wEnv2 wFS [⟨"python", "A"⟩]).2.1
      "/data/tmp_code_1.python" = some "A" ∧
    (execute_code wEnv2 wFS [⟨"python", "A"⟩, ⟨"python", "B"⟩]).2.1
      "/data/tmp_code_1.python" = some "A\nB" :=
  append_semantics wEnv2 wFS ⟨"python", "A"⟩ ⟨"python", "B"⟩
    "/data/tmp_code_1.python" rfl rfl rfl rfl rfl rfl rfl

/-- **C6.** Fragment-to-file resolution is deterministic: a fragment body
without an explicit filename directive resolves, every time, to the same
path, whose filename is synthesized from the deterministic hash of the
(silenced) body plus the language's extension:
`tmp_code_<sha256_hexdigest>.<lang>`. -/
theorem fragment_resolution_deterministic (env : Env) (b1 b2 : CodeBlock)
    (hno : env.get_file_name_from_content (silenced env b1) = Except.ok none)
    (hcode : b1.code = b2.code) (hlang : b1.language = b2.language) :
    resolvedPath env b1 = resolvedPath env b2 ∧
    resolvedFilename env b1 =
      "tmp_code_" ++ env.sha256_hexdigest (silenced env b1) ++ "." ++
        strLower b1.language := by
  have hb : b1 = b2 := by cases b1; cases b2; simp_all
  subst hb
  refine ⟨rfl, ?_⟩
  unfold resolvedFilename
  rw [hno]

/-- Witness for C6: resolving the body `A` (no directive) twice yields
the same path, of the hash-plus-extension form. -/
theorem fragment_resolution_deterministic_witness :
    resolvedPath wEnv2 ⟨"python", "A"⟩ = resolvedPath wEnv2 ⟨"python", "A"⟩ ∧
    resolvedFilename wEnv2 ⟨"python", "A"⟩ = "tmp_code_1.python" := by
  have h := fragment_resolution_deterministic wEnv2 ⟨"python", "A"⟩
    ⟨"python", "A"⟩ rfl rfl rfl
  exact ⟨h.1, by rw [h.2]; rfl⟩

/-- **C10.** The pip-silencing pass runs before filename resolution and
before hashing: the fallback filename is
`tmp_code_<sha256 of the silenced body>.<lowercased language>`, and what
gets written is the silenced body; hence two blocks whose bodies become
identical after silencing resolve to the same path, and the second is
silently appended to the first's file, separated by one newline. -/
theorem silencing_before_resolution (env : Env) (fs : FS) (b1 b2 : CodeBlock)
    (h1 : env.get_file_name_from_content (silenced env b1) = Except.ok none)
    (h2 : env.get_file_name_from_content (silenced env b2) = Except.ok none)
    (hs : silenced env b1 = silenced env b2)
    (hl : strLower b1.language = strLower b2.language)
    (hnew : fs (env.work_dir ++ "/" ++
      ("tmp_code_" ++ env.sha256_hexdigest (silenced env b1) ++ "." ++
        strLower b1.language)) = none)
    (hexit0 : fragExit env 0 = 0) (hrun : env.running = true) :
    resolvedFilename env b1 =
      "tmp_code_" ++ env.sha256_hexdigest (silenced env b1) ++ "." ++
        strLower b1.language ∧
    resolvedPath env b2 = resolvedPath env b1 ∧
    (execute_code env fs [b1, b2]).2.1 (resolvedPath env b1) =
      some (silenced env b1 ++ "\n" ++ silenced env b2) := by
  have hf1 : resolvedFilename env b1 =
      "tmp_code_" ++ env.sha256_hexdigest (silenced env b1) ++ "." ++
        strLower b1.language := by
    unfold resolvedFilename; rw [h1]
  have hf2 : resolvedFilename env b2 =
      "tmp_code_" ++ env.sha256_hexdigest (silenced env b2) ++ "." ++
        strLower b2.language := by
    unfold resolvedFilename; rw [h2]
  have hpp : resolvedPath env b2 = resolvedPath env b1 := by
    unfold resolvedPath; rw [hf1, hf2, hs, hl]
  have hres1 : resolvesOk env b1 = true := by unfold resolvesOk; rw [h1]
  have hres2 : resolvesOk env b2 = true := by unfold resolvesOk; rw [h2]
  have hnew' : fs (resolvedPath env b1) = none := by
    unfold resolvedPath; rw [hf1]; exact hnew
  exact ⟨hf1, hpp,
    (execute_two_same_path env fs b1 b2 (resolvedPath env b1) hres1 hres2
      rfl hpp hnew' hexit0 hrun).2⟩

/-- `wEnv2` with a pip-silencing pass that maps the distinct bodies `X1`
and `X2` to the same silenced body `S`. -/
def wEnvSilence : Env :=
  { wEnv2 with
    silence_pip := fun code _ =>
      if code = "X1" then "S" else if code = "X2" then "S" else code }

/-- Witness for C10: distinct bodies `X1` and `X2` (languages `python` and
`Python`) silence to `S`, resolve to one path, and the file ends up
holding `S\nS`. -/
theorem silencing_before_resolution_witness :
    resolvedPath wEnvSilence ⟨"Python", "X2"⟩ =
      resolvedPath wEnvSilence ⟨"python", "X1"⟩ ∧
    (execute_code wEnvSilence wFS
      [⟨"python", "X1"⟩, ⟨"Python", "X2"⟩]).2.1
      (resolvedPath wEnvSilence ⟨"python", "X1"⟩) = some "S\nS" := by
  have h := silencing_before_resolution wEnvSilence wFS ⟨"python", "X1"⟩
    ⟨"Python", "X2"⟩ rfl rfl (by decide) (by decide) rfl rfl rfl
  exact ⟨h.2.1, by rw [h.2.2]; rfl⟩

/-- **C7.** A block whose command hits the timeout (the wrapper reports the
reserved exit code 124) after a prefix of successful blocks: the runner
reports exit code 124, that block's recorded output is the container
output with the notice `"\n Timeout"` appended, and no block after it is
written or executed. -/
theorem timeout_semantics (env : Env) (fs : FS) (good : List CodeBlock)
    (tb : CodeBlock) (after : List CodeBlock)
    (hrun : env.running = true)
    (hgood : ∀ cb ∈ good, resolvesOk env cb = true)
    (hexits : ∀ j < good.length, fragExit env j = 0)
    (htb : resolvesOk env tb = true)
    (htimeout : fragExit env good.length = 124) :
    execute_code env fs (good ++ tb :: after) =
      (Except.ok
        ⟨124,
         String.join ((List.range' 0 good.length).map (fragOutput env)) ++
           ((env.exec_run good.length).output ++ "\n Timeout"),
         ((good ++ [tb]).map (resolvedPath env)).head?⟩,
       writeAll env (good ++ [tb]) fs,
       (good ++ [tb]).map (fragCommand env)) := by
  unfold execute_code
  rw [execLoop_append_ok env good (tb :: after) 0 [] [] fs [] hgood
      (by simpa using hexits),
    execLoop_step_ok_stop env tb after (0 + good.length) _ _ 0 _ _ htb
      (by simp [htimeout])]
  simp [hrun, join_concat, fragOutput, htimeout, writeAll, List.foldl_append]

/-- `wEnv2` with the second command timing out (exit 124). -/
def wEnv7 : Env :=
  { wEnv2 with
    exec_run := fun i => if i = 0 then ⟨0, "a;"⟩ else ⟨124, "slow"⟩ }

/-- Witness for C7: block B times out after A; C is not executed; output
carries the timeout notice and exit code is 124. -/
theorem timeout_semantics_witness :
    (execute_code wEnv7 wFS
      [⟨"python", "A"⟩, ⟨"python", "B"⟩, ⟨"python", "C"⟩]).1 =
      Except.ok ⟨124, "a;slow\n Timeout", some "/data/tmp_code_1.python"⟩ ∧
    (execute_code wEnv7 wFS
      [⟨"python", "A"⟩, ⟨"python", "B"⟩, ⟨"python", "C"⟩]).2.2 =
      [["timeout", "60", "python3", "tmp_code_1.python"],
       ["timeout", "60", "python3", "tmp_code_1.python"]] := by
  have h := timeout_semantics wEnv7 wFS [⟨"python", "A"⟩] ⟨"python", "B"⟩
    [⟨"python", "C"⟩] rfl
    (by intro cb hcb; fin_cases hcb; rfl)
    (by intro j hj; simp at hj; subst hj; rfl)
    rfl rfl
  constructor
  · rw [show ([⟨"python", "A"⟩, ⟨"python", "B"⟩, ⟨"python", "C"⟩] :
      List CodeBlock) =
      [⟨"python", "A"⟩] ++ ⟨"python", "B"⟩ :: [⟨"python", "C"⟩] from rfl, h]
    rfl
  · rw [show ([⟨"python", "A"⟩, ⟨"python", "B"⟩, ⟨"python", "C"⟩] :
      List CodeBlock) =
      [⟨"python", "A"⟩] ++ ⟨"python", "B"⟩ :: [⟨"python", "C"⟩] from rfl, h]
    rfl

/-! ## Termination conditions

`TextMentionTermination` and `MaxMessageTermination` are autogen library
classes, not code of this repository; their evaluation is modelled from
the spec (section 4.2): `contentContains phrase` is true when the most
recent message's content contains `phrase`, `messageCountAtLeast n` once
the history holds at least `n` messages.  The composite below is what
`create_team` wires on line 184 from the conditions of lines 156-158. -/

/-- A composable termination condition: the two primitives and the `|`
(OR) combinator. -/
inductive TerminationCondition where
  | contentContains (phrase : String)
  | messageCountAtLeast (n : Nat)
  | disj (a b : TerminationCondition)
deriving Repr, DecidableEq

/-- Modelled from the spec: `shouldStop(history)` evaluation of a
termination condition, evaluated after each appended message (the library
classes implementing the primitives are external). -/
def shouldStop : TerminationCondition → List ChatMessage → Bool
  | .contentContains phrase, h =>
    match h.getLast? with
    | none => false
    | some m => containsSub m.content phrase
  | .messageCountAtLeast n, h => decide (n ≤ h.length)
  | .disj a b, h => shouldStop a h || shouldStop b h

/-- The composite termination condition `create_team` builds:
`TextMentionTermination("COMPLETE") | MaxMessageTermination(5)`. -/
def team_termination : TerminationCondition :=
  .disj (.contentContains "COMPLETE") (.messageCountAtLeast 5)

/-- The composite claimed by the spec, with `maxTurns = 6`. -/
def claimed_termination : TerminationCondition :=
  .disj (.contentContains "COMPLETE") (.messageCountAtLeast 6)

/-- **C8, counterexample.** `create_team` caps the run at 5 messages
(`MaxMessageTermination(5)`), not 6: on a 5-message history with no
`"COMPLETE"`, the code's composite stops while the claimed composite (cap
6) does not. -/
theorem team_termination_cap_counterexample :
    team_termination ≠ claimed_termination ∧
    shouldStop team_termination
      (List.replicate 5 ⟨"writer_agent", "working"⟩) = true ∧
    shouldStop claimed_termination
      (List.replicate 5 ⟨"writer_agent", "working"⟩) = false :=
  ⟨by decide, by decide, by decide⟩

/-- **C8, amended.** The driver's composite termination condition is
`ContentContains("COMPLETE") OR MessageCountAtLeast(5)`, evaluated after
each appended message: it stops exactly when the newly appended message
contains `"COMPLETE"` or the history has reached 5 messages, whichever
comes first; in particular every history of at least 5 messages stops. -/
theorem team_termination_spec :
    (∀ (pre : List ChatMessage) (m : ChatMessage),
      shouldStop team_termination (pre ++ [m]) =
        (containsSub m.content "COMPLETE" || decide (5 ≤ pre.length + 1))) ∧
    (∀ h : List ChatMessage, 5 ≤ h.length →
      shouldStop team_termination h = true) ∧
    shouldStop team_termination [] = false := by
  refine ⟨?_, ?_, rfl⟩
  · intro pre m
    simp [team_termination, shouldStop, List.getLast?_concat]
  · intro h hl
    simp [team_termination, shouldStop, hl]

/-- Witness for C8 (amended): a 5-message history with no completion
phrase stops. -/
theorem team_termination_spec_witness :
    shouldStop team_termination
      (List.replicate 5 ⟨"safeguard_agent", "UNSAFE"⟩) = true :=
  team_termination_spec.2.1 (List.replicate 5 ⟨"safeguard_agent", "UNSAFE"⟩)
    (by decide)

/-! ## run_task cleanup

`run_task` (team_handling.py lines 228-278): the whole body — model client
construction, executor construction and startup, and the `run_stream`
loop — runs inside `try`; the `finally` clause removes the working
directory `/data` with `shutil.rmtree`.  The body is abstracted as a
function from the initial filesystem to an outcome (a normal return or a
raised error) together with the filesystem it leaves behind. -/

/-- Errors that abort a run mid-body: environment-level failures and
collaborator exhaustion. -/
inductive RunError where
  | EnvStartFailure
  | EnvStopFailure
  | InferenceUnavailable
  | other (msg : String)
deriving Repr, DecidableEq

/-- The working directory of `run_task` (line 233). -/
def work_dir : String := "/data"

/-- `p` lies under directory `dir` (path-prefix test). -/
def underDir (dir p : String) : Bool :=
  dir.data.isPrefixOf p.data

/-- `shutil.rmtree dir`: every path under `dir` is removed. -/
def rmtree (dir : String) (fs : FS) : FS :=
  fun p => if underDir dir p then none else fs p

/-- try/finally: the cleanup runs on every exit path — whether the body
returned normally or raised — and the body's outcome is then
propagated. -/
def tryFinallyFS {α : Type} (body : FS → Except RunError α × FS)
    (cleanup : FS → FS) (fs : FS) : Except RunError α × FS :=
  let r := body fs
  (r.1, cleanup r.2)

/-- `run_task`: the body in `try`, `shutil.rmtree(work_dir)` in `finally`
(lines 235-278). -/
def run_task {α : Type} (body : FS → Except RunError α × FS) (fs : FS) :
    Except RunError α × FS :=
  tryFinallyFS body (rmtree work_dir) fs

/-- **C9.** For every run body — normal completion, stop on a termination
condition, or an exception raised mid-run (environment failures included)
— `run_task` goes through the same cleanup path: afterwards no path under
the working directory survives, and the body's outcome (value or error) is
propagated unchanged. -/
theorem run_task_cleanup {α : Type} (body : FS → Except RunError α × FS)
    (fs : FS) (p : String) (hp : underDir work_dir p = true) :
    (run_task body fs).2 p = none ∧
    (run_task body fs).1 = (body fs).1 := by
  unfold run_task tryFinallyFS rmtree
  simp [hp]

/-- A working directory holding one file before cleanup. -/
def wFSrun : FS := fun p => if p = "/data/tmp.py" then some "x" else none

/-- Witness for C9: the file under `/data` is gone after a normal run and
after a run aborted by an environment failure. -/
theorem run_task_cleanup_witness :
    (run_task (fun f => ((Except.ok 0 : Except RunError Nat), f))
      wFSrun).2 "/data/tmp.py" = none ∧
    (run_task (fun f => ((Except.error RunError.EnvStartFailure :
      Except RunError Nat), f)) wFSrun).2 "/data/tmp.py" = none :=
  ⟨(run_task_cleanup (fun f => ((Except.ok 0 : Except RunError Nat), f))
      wFSrun "/data/tmp.py" (by decide)).1,
   (run_task_cleanup (fun f => ((Except.error RunError.EnvStartFailure :
      Except RunError Nat), f)) wFSrun "/data/tmp.py" (by decide)).1⟩

end TeamHandling
